import Mathlib

/-!
# Verification of the Visualizer canvas viewport / mask-painting core

Shallow embedding of the interaction logic of the `Visualizer` React
component (`src/unnamed/part_002`): viewport fit/zoom/pan, screen-to-image
coordinate conversion, gesture dispatch (mouse / single touch / two-touch
pinch) and mask painting on the overlay canvas.

Modelling conventions:
* JS numbers are modelled as exact rationals `ℚ`.
* The DOM refs (`canvasRef`, `containerRef`, `imageRef`) are modelled as
  present; the container's bounding rect origin is part of the state
  (`rectLeft`, `rectTop`), its `clientWidth`/`clientHeight` and the image's
  natural size are passed to `fitImageToScreen` as arguments.
* A touch event carries the list of client positions of its active touch
  points, plus the Euclidean distance `Math.hypot` between the first two as
  a datum (`dist01`): the square root of a rational is in general
  irrational, so the distance computed by the external math library is
  recorded on the event rather than recomputed (for axis-aligned touch
  pairs it is the absolute coordinate difference).
* The canvas 2D mask is modelled as its painted-coverage predicate
  `Point → Bool`.  A `stroke()` of a segment with `lineCap/lineJoin round`
  and `lineWidth w` covers exactly the points at distance `≤ w/2` from the
  segment; `source-over` opaque paint adds that set, `destination-out`
  removes it; a `stroke()` of a single-point subpath paints nothing, so the
  first `draw` call of a stroke only records the path point.
-/

/-- A 2D point with rational coordinates (client or canvas space). -/
structure Point where
  x : ℚ
  y : ℚ
deriving DecidableEq, Repr

instance : Inhabited Point := ⟨⟨0, 0⟩⟩

/-- Drawing tool (`useState<'brush' | 'eraser'>`). -/
inductive Tool where
  | brush
  | eraser
deriving DecidableEq, Repr

/-- Interaction mode (`useState<'draw' | 'move'>`). -/
inductive Mode where
  | draw
  | move
deriving DecidableEq, Repr

/-- Active tab (`useState<'visualizer' | 'scanner'>`). -/
inductive Tab where
  | visualizer
  | scanner
deriving DecidableEq, Repr

/-- The component state of `Visualizer` that the interaction handlers read
and write.  `currentPath` is the 2D context's current path point (the last
`moveTo`, `none` right after `beginPath`); `mask` is the painted-pixel
predicate of the mask canvas. -/
structure VState where
  scale : ℚ
  offset : Point
  interactionMode : Mode
  activeTab : Tab
  tool : Tool
  brushSize : ℚ
  isDrawing : Bool
  isDragging : Bool
  hasDrawn : Bool
  initialPinchDist : Option ℚ
  initialScale : ℚ
  lastPosition : Option Point
  currentPath : Option Point
  mask : Point → Bool
  rectLeft : ℚ
  rectTop : ℚ

/-- Initial state of the component's `useState` hooks (scale 1, offset
(0,0), draw mode, visualizer tab, brush tool, brush size 50, clear mask),
with the container rect at the client origin. -/
def initState : VState :=
  { scale := 1
  , offset := ⟨0, 0⟩
  , interactionMode := Mode.draw
  , activeTab := Tab.visualizer
  , tool := Tool.brush
  , brushSize := 50
  , isDrawing := false
  , isDragging := false
  , hasDrawn := false
  , initialPinchDist := none
  , initialScale := 1
  , lastPosition := none
  , currentPath := none
  , mask := fun _ => false
  , rectLeft := 0
  , rectTop := 0 }

/-- `fitImageToScreen` (lines 50-77): no-op when either container dimension
is zero; otherwise substitutes 1000 for a falsy natural image dimension
(`naturalWidth || 1000`), sets `scale` to the min of the two axis ratios
and centers the scaled image via `offset`. -/
def fitImageToScreen (imgW imgH cw ch : ℚ) (s : VState) : VState :=
  if cw = 0 ∨ ch = 0 then s
  else
    let iw := if imgW = 0 then 1000 else imgW
    let ih := if imgH = 0 then 1000 else imgH
    let scaleX := cw / iw
    let scaleY := ch / ih
    let init := min scaleX scaleY
    { s with
      scale := init
      offset := ⟨(cw - iw * init) / 2, (ch - ih * init) / 2⟩ }

/-- `getCanvasCoordinates` (lines 124-135): subtract the container rect
origin and the viewport offset, then divide by the scale.  The `null`
guard concerns missing refs, which are modelled as present. -/
def getCanvasCoordinates (s : VState) (clientX clientY : ℚ) : Point :=
  let relativeX := clientX - s.rectLeft
  let relativeY := clientY - s.rectTop
  ⟨(relativeX - s.offset.x) / s.scale, (relativeY - s.offset.y) / s.scale⟩

/-- `handleZoom` (lines 234-236): add the delta and clamp to `[0.1, 10]`. -/
def handleZoom (delta : ℚ) (s : VState) : VState :=
  { s with scale := max 0.1 (min (s.scale + delta) 10) }

/-- Squared distance from `p` to the segment `a`–`b` (the closest-point
parameter is rational, so this is exact over `ℚ`). -/
def distSqPointSeg (p a b : Point) : ℚ :=
  let dx := b.x - a.x
  let dy := b.y - a.y
  let l2 := dx ^ 2 + dy ^ 2
  if l2 = 0 then (p.x - a.x) ^ 2 + (p.y - a.y) ^ 2
  else
    let t := max 0 (min 1 (((p.x - a.x) * dx + (p.y - a.y) * dy) / l2))
    (p.x - (a.x + t * dx)) ^ 2 + (p.y - (a.y + t * dy)) ^ 2

/-- Coverage of a round-capped, round-joined stroked segment of width `w`:
the points within `w/2` of the segment (stated on squared distances). -/
def covers (a b : Point) (w : ℚ) (p : Point) : Bool :=
  decide (4 * distSqPointSeg p a b ≤ w ^ 2)

/-- `draw` (lines 203-224): sets `hasDrawn`, then `lineTo(x,y); stroke()`
paints the segment from the current path point (if any) with the current
tool — `source-over` opaque paint for the brush, `destination-out` clear
for the eraser — and `beginPath(); moveTo(x,y)` records `(x,y)` as the new
path point.  When the path was empty the single-point `stroke()` paints
nothing. -/
def draw (s : VState) (x y : ℚ) : VState :=
  let s1 := { s with hasDrawn := true }
  match s1.currentPath with
  | none => { s1 with currentPath := some ⟨x, y⟩ }
  | some q =>
    let newMask : Point → Bool :=
      match s1.tool with
      | Tool.brush => fun p => s1.mask p || covers q ⟨x, y⟩ s1.brushSize p
      | Tool.eraser => fun p => s1.mask p && !covers q ⟨x, y⟩ s1.brushSize p
    { s1 with mask := newMask, currentPath := some ⟨x, y⟩ }

/-- `clearCanvas` (lines 226-232): `clearRect` over the whole canvas and
reset of `hasDrawn`. -/
def clearCanvas (s : VState) : VState :=
  { s with mask := fun _ => false, hasDrawn := false }

/-- `setTool` UI setter. -/
def setTool (t : Tool) (s : VState) : VState := { s with tool := t }

/-- `setBrushSize` UI setter. -/
def setBrushSize (w : ℚ) (s : VState) : VState := { s with brushSize := w }

/-- A pointer event as seen by `handleStart` / `handleMove`: a mouse event
with its client coordinates, or a touch event with the client positions of
its active touch points and the `Math.hypot` distance between the first
two (see the module docstring). -/
inductive PEvent where
  | mouse (clientX clientY : ℚ)
  | touch (pts : List Point) (dist01 : ℚ)
deriving Repr

/-- JS truthiness of the `initialPinchDist` state (`null` and `0` are
falsy). -/
def optTruthy : Option ℚ → Bool
  | none => false
  | some d => !(d == 0)

/-- `activeTab === 'scanner' ? 'move' : interactionMode` (lines 152, 178). -/
def effectiveMode (s : VState) : Mode :=
  if s.activeTab = Tab.scanner then Mode.move else s.interactionMode

/-- The single-pointer branch of `handleStart` (lines 148-161): in move
mode start a drag and record the raw client point; otherwise start drawing
and apply one paint sample at the converted canvas coordinate. -/
def startPointer (s : VState) (p : Point) : VState :=
  if effectiveMode s = Mode.move then
    { s with isDragging := true, lastPosition := some p }
  else
    let s1 := { s with isDrawing := true }
    let coords := getCanvasCoordinates s1 p.x p.y
    draw s1 coords.x coords.y

/-- `handleStart` (lines 137-162): an event with exactly two touch points
records the pinch distance and the current scale and returns; any other
event is handled via its first point (`touches[0]` or the mouse point). -/
def handleStart (s : VState) (e : PEvent) : VState :=
  match e with
  | PEvent.touch pts dist01 =>
    if pts.length = 2 then
      { s with initialPinchDist := some dist01, initialScale := s.scale }
    else startPointer s pts.headI
  | PEvent.mouse cx cy => startPointer s ⟨cx, cy⟩

/-- The single-pointer branch of `handleMove` (lines 175-190): pan by the
client-space delta while dragging in move mode, or paint at the converted
canvas coordinate while drawing in draw mode. -/
def movePointer (s : VState) (p : Point) : VState :=
  if effectiveMode s = Mode.move ∧ s.isDragging = true ∧ s.lastPosition.isSome then
    match s.lastPosition with
    | some lp =>
      { s with
        offset := ⟨s.offset.x + (p.x - lp.x), s.offset.y + (p.y - lp.y)⟩
        lastPosition := some p }
    | none => s
  else if effectiveMode s = Mode.draw ∧ s.isDrawing = true then
    let coords := getCanvasCoordinates s p.x p.y
    draw s coords.x coords.y
  else s

/-- `handleMove` (lines 164-191): an event with exactly two touch points
and a truthy recorded pinch distance rescales to
`clamp(initialScale * dist/initialPinchDist, 0.1, 10)`; any other event is
handled via its first point. -/
def handleMove (s : VState) (e : PEvent) : VState :=
  match e with
  | PEvent.touch pts dist01 =>
    if pts.length = 2 ∧ optTruthy s.initialPinchDist = true then
      let d0 := s.initialPinchDist.getD 0
      let delta := dist01 / d0
      { s with scale := min (max (s.initialScale * delta) 0.1) 10 }
    else movePointer s pts.headI
  | PEvent.mouse cx cy => movePointer s ⟨cx, cy⟩

/-- `handleEnd` (lines 193-201): clear the drawing/dragging flags and the
pinch distance, `beginPath()` the context and drop the last pan point. -/
def handleEnd (s : VState) : VState :=
  { s with
    isDrawing := false
    isDragging := false
    initialPinchDist := none
    currentPath := none
    lastPosition := none }

/-- `handleGenerate` (lines 240-248): the mask canvas is serialized and
attached to the outgoing request iff `hasDrawn` is set (the canvas ref is
modelled as present). -/
def generateIncludesMask (s : VState) : Bool := s.hasDrawn

/-- A UI event hitting the canvas interaction handlers or the zoom
buttons. -/
inductive UIEvent where
  | start (e : PEvent)
  | move (e : PEvent)
  | finish
  | zoomClick (delta : ℚ)
deriving Repr

/-- Dispatch of one UI event to its handler. -/
def stepUI (s : VState) : UIEvent → VState
  | UIEvent.start e => handleStart s e
  | UIEvent.move e => handleMove s e
  | UIEvent.finish => handleEnd s
  | UIEvent.zoomClick d => handleZoom d s

/-- Run a list of UI events. -/
def runUI (s : VState) (evs : List UIEvent) : VState :=
  evs.foldl stepUI s

/-- C1: with all four dimensions positive, `fitImageToScreen` sets the scale
to `min(cw/imgW, ch/imgH)`, sets the offset to half the leftover space on
each axis, and the scaled image's bounding box is centered in the container
exactly (hence within one pixel). -/
theorem fitImageToScreen_centers (imgW imgH cw ch : ℚ) (s : VState)
    (hiw : 0 < imgW) (hih : 0 < imgH) (hcw : 0 < cw) (hch : 0 < ch) :
    (fitImageToScreen imgW imgH cw ch s).scale = min (cw / imgW) (ch / imgH) ∧
    (fitImageToScreen imgW imgH cw ch s).offset.x
      = (cw - imgW * (fitImageToScreen imgW imgH cw ch s).scale) / 2 ∧
    (fitImageToScreen imgW imgH cw ch s).offset.y
      = (ch - imgH * (fitImageToScreen imgW imgH cw ch s).scale) / 2 ∧
    (fitImageToScreen imgW imgH cw ch s).offset.x
      + imgW * (fitImageToScreen imgW imgH cw ch s).scale / 2 = cw / 2 ∧
    (fitImageToScreen imgW imgH cw ch s).offset.y
      + imgH * (fitImageToScreen imgW imgH cw ch s).scale / 2 = ch / 2 := by
  have hcw' : cw ≠ 0 := ne_of_gt hcw
  have hch' : ch ≠ 0 := ne_of_gt hch
  have hiw' : imgW ≠ 0 := ne_of_gt hiw
  have hih' : imgH ≠ 0 := ne_of_gt hih
  simp only [fitImageToScreen, hcw', hch', hiw', hih', if_false, or_self]
  refine ⟨trivial, trivial, trivial, by ring, by ring⟩

/-- Witness for `fitImageToScreen_centers` at a 200×100 image in a 400×400
container. -/
theorem fitImageToScreen_centers_witness :
    (fitImageToScreen 200 100 400 400 initState).scale = min (400 / 200) (400 / 100) ∧
    (fitImageToScreen 200 100 400 400 initState).offset.x
      = (400 - 200 * (fitImageToScreen 200 100 400 400 initState).scale) / 2 ∧
    (fitImageToScreen 200 100 400 400 initState).offset.y
      = (400 - 100 * (fitImageToScreen 200 100 400 400 initState).scale) / 2 ∧
    (fitImageToScreen 200 100 400 400 initState).offset.x
      + 200 * (fitImageToScreen 200 100 400 400 initState).scale / 2 = 400 / 2 ∧
    (fitImageToScreen 200 100 400 400 initState).offset.y
      + 100 * (fitImageToScreen 200 100 400 400 initState).scale / 2 = 400 / 2 :=
  fitImageToScreen_centers 200 100 400 400 initState
    (by norm_num) (by norm_num) (by norm_num) (by norm_num)

/-- C2: for any scale in `[0.1, 10]`, `getCanvasCoordinates` returns
`((clientX - rectLeft - offsetX)/scale, (clientY - rectTop - offsetY)/scale)`,
and the inverse transform (`imagePoint * scale + offset`, plus the container
origin) reproduces the client point exactly. -/
theorem getCanvasCoordinates_roundtrip (s : VState) (clientX clientY : ℚ)
    (hlo : 0.1 ≤ s.scale) (hhi : s.scale ≤ 10) :
    getCanvasCoordinates s clientX clientY
      = ⟨(clientX - s.rectLeft - s.offset.x) / s.scale,
         (clientY - s.rectTop - s.offset.y) / s.scale⟩ ∧
    (getCanvasCoordinates s clientX clientY).x * s.scale + s.offset.x + s.rectLeft
      = clientX ∧
    (getCanvasCoordinates s clientX clientY).y * s.scale + s.offset.y + s.rectTop
      = clientY := by
  have hs : s.scale ≠ 0 := by
    intro h
    rw [h] at hlo
    norm_num at hlo
  refine ⟨rfl, ?_, ?_⟩ <;>
    · simp only [getCanvasCoordinates]
      field_simp

/-- Witness for `getCanvasCoordinates_roundtrip` at the initial state and
client point (37, -5). -/
theorem getCanvasCoordinates_roundtrip_witness :
    getCanvasCoordinates initState 37 (-5)
      = ⟨(37 - initState.rectLeft - initState.offset.x) / initState.scale,
         ((-5) - initState.rectTop - initState.offset.y) / initState.scale⟩ ∧
    (getCanvasCoordinates initState 37 (-5)).x * initState.scale
      + initState.offset.x + initState.rectLeft = 37 ∧
    (getCanvasCoordinates initState 37 (-5)).y * initState.scale
      + initState.offset.y + initState.rectTop = -5 :=
  getCanvasCoordinates_roundtrip initState 37 (-5) (by norm_num [initState])
    (by norm_num [initState])

/-- `draw` never changes the viewport scale. -/
theorem draw_scale (s : VState) (x y : ℚ) : (draw s x y).scale = s.scale := by
  cases h : s.currentPath <;> simp [draw, h]

/-- The single-pointer start branch never changes the viewport scale. -/
theorem startPointer_scale (s : VState) (p : Point) :
    (startPointer s p).scale = s.scale := by
  unfold startPointer
  split <;> simp [draw_scale]

/-- `handleStart` never changes the viewport scale. -/
theorem handleStart_scale (s : VState) (e : PEvent) :
    (handleStart s e).scale = s.scale := by
  cases e with
  | mouse cx cy => exact startPointer_scale s ⟨cx, cy⟩
  | touch pts d =>
    simp only [handleStart]
    split <;> simp [startPointer_scale]

/-- The single-pointer move branch never changes the viewport scale. -/
theorem movePointer_scale (s : VState) (p : Point) :
    (movePointer s p).scale = s.scale := by
  unfold movePointer
  split
  · split <;> rfl
  · split <;> simp [draw_scale]

/-- One UI event keeps the scale inside `[0.1, 10]`. -/
theorem stepUI_scale_mem (s : VState) (e : UIEvent)
    (h1 : 0.1 ≤ s.scale) (h2 : s.scale ≤ 10) :
    0.1 ≤ (stepUI s e).scale ∧ (stepUI s e).scale ≤ 10 := by
  cases e with
  | start e => rw [stepUI, handleStart_scale]; exact ⟨h1, h2⟩
  | finish => exact ⟨h1, h2⟩
  | zoomClick d =>
    refine ⟨le_max_left _ _, max_le (by norm_num) (min_le_right _ _)⟩
  | move e =>
    cases e with
    | mouse cx cy => rw [stepUI, handleMove, movePointer_scale]; exact ⟨h1, h2⟩
    | touch pts d =>
      rw [stepUI, handleMove]
      split
      · exact ⟨le_min (le_max_right _ _) (by norm_num), min_le_right _ _⟩
      · rw [movePointer_scale]; exact ⟨h1, h2⟩

/-- C3: starting from any scale in `[0.1, 10]`, no sequence of UI events
(zoom-button clicks with arbitrary deltas, pointer/touch starts and moves
— including pinch updates — and ends) ever takes the scale outside
`[0.1, 10]`. -/
theorem scale_stays_clamped (evs : List UIEvent) (s : VState)
    (h1 : 0.1 ≤ s.scale) (h2 : s.scale ≤ 10) :
    0.1 ≤ (runUI s evs).scale ∧ (runUI s evs).scale ≤ 10 := by
  induction evs generalizing s with
  | nil => exact ⟨h1, h2⟩
  | cons e rest ih =>
    have hstep := stepUI_scale_mem s e h1 h2
    exact ih (stepUI s e) hstep.1 hstep.2

/-- Witness for `scale_stays_clamped`: a huge zoom-in click followed by a
huge zoom-out click and a pinch gesture, from the initial state. -/
theorem scale_stays_clamped_witness :
    0.1 ≤ (runUI initState
      [UIEvent.zoomClick 1000, UIEvent.zoomClick (-2000),
       UIEvent.start (PEvent.touch [⟨0, 0⟩, ⟨100, 0⟩] 100),
       UIEvent.move (PEvent.touch [⟨0, 0⟩, ⟨7, 0⟩] 7)]).scale ∧
    (runUI initState
      [UIEvent.zoomClick 1000, UIEvent.zoomClick (-2000),
       UIEvent.start (PEvent.touch [⟨0, 0⟩, ⟨100, 0⟩] 100),
       UIEvent.move (PEvent.touch [⟨0, 0⟩, ⟨7, 0⟩] 7)]).scale ≤ 10 :=
  scale_stays_clamped _ initState (by norm_num [initState]) (by norm_num [initState])

/-- C4: while a pinch session with recorded distance `d0 ≠ 0` is active,
a two-touch move event with current distance `d` sets the scale to
`clamp(initialScale * (d / d0), 0.1, 10)`, computed from the values
recorded at pinch start. -/
theorem pinch_ratio_scale (s : VState) (pts : List Point) (d0 d : ℚ)
    (hrec : s.initialPinchDist = some d0) (hd0 : d0 ≠ 0)
    (hlen : pts.length = 2) :
    (handleMove s (PEvent.touch pts d)).scale
      = min (max (s.initialScale * (d / d0)) 0.1) 10 := by
  have ht : optTruthy (some d0) = true := by
    simp [optTruthy, hd0]
  simp [handleMove, hlen, hrec, ht]

/-- Witness for `pinch_ratio_scale`: a pinch started at distance 100 with
scale 1 records those values; a move at distance 200 yields scale 2 and a
move at distance 50 yields scale 1/2. -/
theorem pinch_ratio_scale_witness :
    (handleStart initState (PEvent.touch [⟨0, 0⟩, ⟨100, 0⟩] 100)).initialPinchDist
      = some 100 ∧
    (handleMove (handleStart initState (PEvent.touch [⟨0, 0⟩, ⟨100, 0⟩] 100))
       (PEvent.touch [⟨0, 0⟩, ⟨200, 0⟩] 200)).scale = 2 ∧
    (handleMove (handleStart initState (PEvent.touch [⟨0, 0⟩, ⟨100, 0⟩] 100))
       (PEvent.touch [⟨0, 0⟩, ⟨50, 0⟩] 50)).scale = 1 / 2 := by
  refine ⟨rfl, ?_, ?_⟩
  · rw [pinch_ratio_scale _ [⟨0, 0⟩, ⟨200, 0⟩] 100 200 rfl (by norm_num) rfl]
    norm_num [handleStart, initState, max_def, min_def]
  · rw [pinch_ratio_scale _ [⟨0, 0⟩, ⟨50, 0⟩] 100 50 rfl (by norm_num) rfl]
    norm_num [handleStart, initState, max_def, min_def]

/-- Shape of `handleMove` on a two-touch event with a truthy recorded pinch
distance: only the scale changes, to the clamped ratio value. -/
theorem handleMove_pinch_branch (t : VState) (pts : List Point) (d0 d : ℚ)
    (hrec : t.initialPinchDist = some d0) (hd0 : d0 ≠ 0)
    (hlen : pts.length = 2) :
    handleMove t (PEvent.touch pts d)
      = { t with scale := min (max (t.initialScale * (d / d0)) 0.1) 10 } := by
  have ht : optTruthy (some d0) = true := by simp [optTruthy, hd0]
  simp [handleMove, hlen, hrec, ht]

/-- Any sequence of two-touch move events during a pinch session with a
nonzero recorded distance only rescales: the mask is untouched. -/
theorem pinchMoves_mask (d0 : ℚ) (hd0 : d0 ≠ 0)
    (moves : List (List Point × ℚ)) :
    ∀ t : VState, t.initialPinchDist = some d0 →
      (∀ m ∈ moves, m.1.length = 2) →
      (moves.foldl (fun t m => handleMove t (PEvent.touch m.1 m.2)) t).mask
        = t.mask := by
  induction moves with
  | nil => intro t _ _; rfl
  | cons m rest ih =>
    intro t hrec hmoves
    have hm : m.1.length = 2 := hmoves m (List.mem_cons_self m rest)
    have hb := handleMove_pinch_branch t m.1 d0 m.2 hrec hd0 hm
    have h1 : (handleMove t (PEvent.touch m.1 m.2)).initialPinchDist = some d0 := by
      rw [hb]; exact hrec
    have h2 : (handleMove t (PEvent.touch m.1 m.2)).mask = t.mask := by
      rw [hb]
    simp only [List.foldl_cons]
    rw [ih (handleMove t (PEvent.touch m.1 m.2)) h1
      (fun m' hm' => hmoves m' (List.mem_cons_of_mem m hm')), h2]

/-- C5 (amended): if a second touch point appears while a paint stroke is
in progress and the two touch points are at distinct positions (recorded
`Math.hypot` distance nonzero), every subsequent two-touch move is routed
to pinch handling and never paints, so the mask keeps exactly the segments
painted before the second touch appeared.  (The code does not clear
`isDrawing`; with a recorded distance of zero a two-touch move falls
through to the paint path — see the counterexample.) -/
theorem pinch_interrupt_no_paint (s : VState) (pts0 : List Point) (d0 : ℚ)
    (moves : List (List Point × ℚ))
    (hlen : pts0.length = 2) (hd0 : d0 ≠ 0)
    (hmoves : ∀ m ∈ moves, m.1.length = 2) :
    (moves.foldl (fun t m => handleMove t (PEvent.touch m.1 m.2))
        (handleStart s (PEvent.touch pts0 d0))).mask = s.mask := by
  have hstart : handleStart s (PEvent.touch pts0 d0)
      = { s with initialPinchDist := some d0, initialScale := s.scale } := by
    simp [handleStart, hlen]
  have hrun := pinchMoves_mask d0 hd0 moves
    { s with initialPinchDist := some d0, initialScale := s.scale } rfl hmoves
  rw [hstart, hrun]

/-- Witness for `pinch_interrupt_no_paint`: pinch started at distance 100,
one two-touch move at distance 50; the mask is the initial one. -/
theorem pinch_interrupt_no_paint_witness :
    (([([⟨0, 0⟩, ⟨50, 0⟩], 50)] : List (List Point × ℚ)).foldl
        (fun t m => handleMove t (PEvent.touch m.1 m.2))
        (handleStart initState (PEvent.touch [⟨0, 0⟩, ⟨100, 0⟩] 100))).mask
      = initState.mask :=
  pinch_interrupt_no_paint initState [⟨0, 0⟩, ⟨100, 0⟩] 100
    [([⟨0, 0⟩, ⟨50, 0⟩], 50)] rfl (by norm_num)
    (by intro m hm; rw [List.mem_singleton] at hm; subst hm; rfl)

/-- Counterexample to C5 as stated: paint from (0,0) to (10,0) with a
10-pixel brush, then a second touch appears at the same client position as
the first (recorded pinch distance 0, which is falsy); the next two-touch
move falls through to the paint path and paints the segment to (30,0), so
the point (20,0) — untouched before the interruption — ends up painted. -/
theorem pinch_zero_dist_paints_continuation :
    (runUI (setBrushSize 10 initState)
      [UIEvent.start (PEvent.touch [⟨0, 0⟩] 0),
       UIEvent.move (PEvent.touch [⟨10, 0⟩] 0)]).mask ⟨20, 0⟩ = false ∧
    (runUI (setBrushSize 10 initState)
      [UIEvent.start (PEvent.touch [⟨0, 0⟩] 0),
       UIEvent.move (PEvent.touch [⟨10, 0⟩] 0),
       UIEvent.start (PEvent.touch [⟨10, 0⟩, ⟨10, 0⟩] 0),
       UIEvent.move (PEvent.touch [⟨30, 0⟩, ⟨30, 0⟩] 0)]).mask ⟨20, 0⟩
      = true := by
  have hts : ¬ (Tab.visualizer = Tab.scanner) := by decide
  have hdm : ¬ (Mode.draw = Mode.move) := by decide
  constructor <;>
  · set_option maxHeartbeats 2000000 in
    norm_num [runUI, stepUI, handleStart, handleMove, handleEnd, startPointer,
      movePointer, effectiveMode, getCanvasCoordinates, draw, covers,
      distSqPointSeg, optTruthy, setBrushSize, initState, hts, hdm]

/-- Counterexample to C6 as stated: in draw mode on the visualizer tab, a
start event with three touch points does not record a pinch session (which
is what the two-point case does) but starts a paint stroke from the first
point. -/
theorem three_touch_not_pinch :
    (handleStart initState
        (PEvent.touch [⟨0, 0⟩, ⟨100, 0⟩, ⟨50, 50⟩] 100)).initialPinchDist
      = none ∧
    (handleStart initState
        (PEvent.touch [⟨0, 0⟩, ⟨100, 0⟩, ⟨50, 50⟩] 100)).isDrawing = true ∧
    (handleStart initState
        (PEvent.touch [⟨0, 0⟩, ⟨100, 0⟩] 100)).initialPinchDist = some 100 := by
  refine ⟨rfl, rfl, rfl⟩

/-- C6 (amended): an event with more than two touch points is handled as
the single-point case via its first touch point, for both start and move;
the handlers are total, so this is never a fatal condition. -/
theorem extra_touches_single_point (s : VState) (pts : List Point) (d d' : ℚ)
    (h : 2 < pts.length) :
    handleStart s (PEvent.touch pts d)
      = handleStart s (PEvent.touch [pts.headI] d') ∧
    handleMove s (PEvent.touch pts d)
      = handleMove s (PEvent.touch [pts.headI] d') := by
  have hne : ¬ pts.length = 2 := by omega
  constructor
  · simp [handleStart, hne]
  · simp [handleMove, hne]

/-- Witness for `extra_touches_single_point`: a three-touch start and move
behave exactly like the corresponding one-touch events at the first
point. -/
theorem extra_touches_single_point_witness :
    handleStart initState (PEvent.touch [⟨1, 2⟩, ⟨3, 4⟩, ⟨5, 6⟩] 9)
      = handleStart initState (PEvent.touch [⟨1, 2⟩] 3) ∧
    handleMove initState (PEvent.touch [⟨1, 2⟩, ⟨3, 4⟩, ⟨5, 6⟩] 9)
      = handleMove initState (PEvent.touch [⟨1, 2⟩] 3) := by
  have h := extra_touches_single_point initState [⟨1, 2⟩, ⟨3, 4⟩, ⟨5, 6⟩] 9 3
    (by norm_num)
  simpa using h

/-- The two interaction modes are distinct. -/
theorem mode_draw_ne_move : ¬ (Mode.draw = Mode.move) := by decide

/-- The two tabs are distinct. -/
theorem tab_vis_ne_scan : ¬ (Tab.visualizer = Tab.scanner) := by decide

/-- `draw` never changes the viewport offset. -/
theorem draw_offset (s : VState) (x y : ℚ) : (draw s x y).offset = s.offset := by
  cases h : s.currentPath <;> simp [draw, h]

/-- `draw` never changes the interaction mode. -/
theorem draw_interactionMode (s : VState) (x y : ℚ) :
    (draw s x y).interactionMode = s.interactionMode := by
  cases h : s.currentPath <;> simp [draw, h]

/-- `draw` never changes the active tab. -/
theorem draw_activeTab (s : VState) (x y : ℚ) :
    (draw s x y).activeTab = s.activeTab := by
  cases h : s.currentPath <;> simp [draw, h]

/-- `draw` never changes the tool. -/
theorem draw_tool (s : VState) (x y : ℚ) : (draw s x y).tool = s.tool := by
  cases h : s.currentPath <;> simp [draw, h]

/-- `draw` never changes the brush size. -/
theorem draw_brushSize (s : VState) (x y : ℚ) :
    (draw s x y).brushSize = s.brushSize := by
  cases h : s.currentPath <;> simp [draw, h]

/-- `draw` always sets `hasDrawn` (brush and eraser alike). -/
theorem draw_hasDrawn (s : VState) (x y : ℚ) : (draw s x y).hasDrawn = true := by
  cases h : s.currentPath <;> simp [draw, h]

/-- `draw` leaves the path at the point just drawn to. -/
theorem draw_currentPath (s : VState) (x y : ℚ) :
    (draw s x y).currentPath = some ⟨x, y⟩ := by
  cases h : s.currentPath <;> simp [draw, h]

/-- `handleStart` on a touch event without exactly two points is the
single-pointer start at the first point. -/
theorem handleStart_not_two (s : VState) (pts : List Point) (d : ℚ)
    (h : ¬ pts.length = 2) :
    handleStart s (PEvent.touch pts d) = startPointer s pts.headI := by
  simp [handleStart, h]

/-- `handleMove` on a touch event without exactly two points is the
single-pointer move at the first point. -/
theorem handleMove_not_two (s : VState) (pts : List Point) (d : ℚ)
    (h : ¬ pts.length = 2) :
    handleMove s (PEvent.touch pts d) = movePointer s pts.headI := by
  simp [handleMove, h]

/-- In move mode, `effectiveMode` is move whatever the tab. -/
theorem effectiveMode_of_move (s : VState) (h : s.interactionMode = Mode.move) :
    effectiveMode s = Mode.move := by
  unfold effectiveMode
  split <;> simp [h]

/-- In draw mode on the visualizer tab, `effectiveMode` is draw. -/
theorem effectiveMode_of_draw_vis (s : VState)
    (hm : s.interactionMode = Mode.draw) (hv : s.activeTab = Tab.visualizer) :
    effectiveMode s = Mode.draw := by
  rw [effectiveMode, if_neg, hm]
  rw [hv]
  exact tab_vis_ne_scan

/-- Shape of the single-pointer start in move mode: only the drag flag and
the recorded last position change. -/
theorem startPointer_move_shape (s : VState) (p : Point)
    (hem : effectiveMode s = Mode.move) :
    startPointer s p = { s with isDragging := true, lastPosition := some p } := by
  rw [startPointer, if_pos hem]

/-- The single-pointer start in draw mode keeps offset, scale, mode and
tab. -/
theorem startPointer_draw_keeps (s : VState) (p : Point)
    (hem : effectiveMode s = Mode.draw) :
    (startPointer s p).offset = s.offset ∧ (startPointer s p).scale = s.scale ∧
    (startPointer s p).interactionMode = s.interactionMode ∧
    (startPointer s p).activeTab = s.activeTab := by
  rw [startPointer, if_neg (by rw [hem]; exact mode_draw_ne_move)]
  exact ⟨draw_offset _ _ _, draw_scale _ _ _, draw_interactionMode _ _ _,
    draw_activeTab _ _ _⟩

/-- The single-pointer move in move mode keeps mask, scale, mode and tab. -/
theorem movePointer_move_keeps (s : VState) (p : Point)
    (hem : effectiveMode s = Mode.move) :
    (movePointer s p).mask = s.mask ∧ (movePointer s p).scale = s.scale ∧
    (movePointer s p).interactionMode = s.interactionMode ∧
    (movePointer s p).activeTab = s.activeTab := by
  unfold movePointer
  split
  · split <;> exact ⟨rfl, rfl, rfl, rfl⟩
  · split
    · rename_i hc
      rw [hem] at hc
      exact absurd hc.1 (by decide)
    · exact ⟨rfl, rfl, rfl, rfl⟩

/-- The single-pointer move in draw mode keeps offset, scale, mode and
tab. -/
theorem movePointer_draw_keeps (s : VState) (p : Point)
    (hem : effectiveMode s = Mode.draw) :
    (movePointer s p).offset = s.offset ∧ (movePointer s p).scale = s.scale ∧
    (movePointer s p).interactionMode = s.interactionMode ∧
    (movePointer s p).activeTab = s.activeTab := by
  unfold movePointer
  split
  · rename_i hc
    rw [hem] at hc
    exact absurd hc.1 (by decide)
  · split
    · exact ⟨draw_offset _ _ _, draw_scale _ _ _, draw_interactionMode _ _ _,
        draw_activeTab _ _ _⟩
    · exact ⟨rfl, rfl, rfl, rfl⟩

/-- A single-pointer UI event: a mouse event, a one-touch event, or an
end event (zoom-button clicks and multi-touch events are not). -/
def isSinglePointer : UIEvent → Bool
  | UIEvent.start (PEvent.mouse _ _) => true
  | UIEvent.start (PEvent.touch pts _) => pts.length == 1
  | UIEvent.move (PEvent.mouse _ _) => true
  | UIEvent.move (PEvent.touch pts _) => pts.length == 1
  | UIEvent.finish => true
  | UIEvent.zoomClick _ => false

/-- One single-pointer event in move mode keeps mask, scale and mode. -/
theorem stepUI_move_mode (s : VState) (e : UIEvent)
    (hm : s.interactionMode = Mode.move) (hsp : isSinglePointer e = true) :
    (stepUI s e).mask = s.mask ∧ (stepUI s e).scale = s.scale ∧
    (stepUI s e).interactionMode = Mode.move := by
  have hem : effectiveMode s = Mode.move := effectiveMode_of_move s hm
  cases e with
  | zoomClick d => exact absurd hsp (by simp [isSinglePointer])
  | finish => exact ⟨rfl, rfl, hm⟩
  | start pe =>
    cases pe with
    | mouse cx cy =>
      simp only [stepUI, handleStart]
      rw [startPointer_move_shape s ⟨cx, cy⟩ hem]
      exact ⟨rfl, rfl, hm⟩
    | touch pts d =>
      have hlen : pts.length = 1 := by simpa [isSinglePointer] using hsp
      simp only [stepUI]
      rw [handleStart_not_two s pts d (by omega),
        startPointer_move_shape s pts.headI hem]
      exact ⟨rfl, rfl, hm⟩
  | move pe =>
    cases pe with
    | mouse cx cy =>
      have h := movePointer_move_keeps s ⟨cx, cy⟩ hem
      exact ⟨h.1, h.2.1, h.2.2.1.trans hm⟩
    | touch pts d =>
      have hlen : pts.length = 1 := by simpa [isSinglePointer] using hsp
      simp only [stepUI]
      rw [handleMove_not_two s pts d (by omega)]
      have h := movePointer_move_keeps s pts.headI hem
      exact ⟨h.1, h.2.1, h.2.2.1.trans hm⟩

/-- One single-pointer event in draw mode on the visualizer tab keeps
offset, scale, mode and tab. -/
theorem stepUI_draw_vis (s : VState) (e : UIEvent)
    (hm : s.interactionMode = Mode.draw) (hv : s.activeTab = Tab.visualizer)
    (hsp : isSinglePointer e = true) :
    (stepUI s e).offset = s.offset ∧ (stepUI s e).scale = s.scale ∧
    (stepUI s e).interactionMode = Mode.draw ∧
    (stepUI s e).activeTab = Tab.visualizer := by
  have hem : effectiveMode s = Mode.draw := effectiveMode_of_draw_vis s hm hv
  cases e with
  | zoomClick d => exact absurd hsp (by simp [isSinglePointer])
  | finish => exact ⟨rfl, rfl, hm, hv⟩
  | start pe =>
    cases pe with
    | mouse cx cy =>
      have h := startPointer_draw_keeps s ⟨cx, cy⟩ hem
      exact ⟨h.1, h.2.1, h.2.2.1.trans hm, h.2.2.2.trans hv⟩
    | touch pts d =>
      have hlen : pts.length = 1 := by simpa [isSinglePointer] using hsp
      simp only [stepUI]
      rw [handleStart_not_two s pts d (by omega)]
      have h := startPointer_draw_keeps s pts.headI hem
      exact ⟨h.1, h.2.1, h.2.2.1.trans hm, h.2.2.2.trans hv⟩
  | move pe =>
    cases pe with
    | mouse cx cy =>
      have h := movePointer_draw_keeps s ⟨cx, cy⟩ hem
      exact ⟨h.1, h.2.1, h.2.2.1.trans hm, h.2.2.2.trans hv⟩
    | touch pts d =>
      have hlen : pts.length = 1 := by simpa [isSinglePointer] using hsp
      simp only [stepUI]
      rw [handleMove_not_two s pts d (by omega)]
      have h := movePointer_draw_keeps s pts.headI hem
      exact ⟨h.1, h.2.1, h.2.2.1.trans hm, h.2.2.2.trans hv⟩

/-- Single-pointer sequences in move mode keep mask and scale. -/
theorem runUI_move_mode (evs : List UIEvent) :
    ∀ s : VState, s.interactionMode = Mode.move →
      (∀ e ∈ evs, isSinglePointer e = true) →
      (runUI s evs).mask = s.mask ∧ (runUI s evs).scale = s.scale := by
  induction evs with
  | nil => intro s _ _; exact ⟨rfl, rfl⟩
  | cons e rest ih =>
    intro s hm hsp
    have hstep := stepUI_move_mode s e hm (hsp e (List.mem_cons_self e rest))
    have hrest := ih (stepUI s e) hstep.2.2
      (fun e' he' => hsp e' (List.mem_cons_of_mem e he'))
    simp only [runUI, List.foldl_cons] at hrest ⊢
    exact ⟨hrest.1.trans hstep.1, hrest.2.trans hstep.2.1⟩

/-- Single-pointer sequences in draw mode on the visualizer tab keep
offset and scale. -/
theorem runUI_draw_vis (evs : List UIEvent) :
    ∀ s : VState, s.interactionMode = Mode.draw → s.activeTab = Tab.visualizer →
      (∀ e ∈ evs, isSinglePointer e = true) →
      (runUI s evs).offset = s.offset ∧ (runUI s evs).scale = s.scale := by
  induction evs with
  | nil => intro s _ _ _; exact ⟨rfl, rfl⟩
  | cons e rest ih =>
    intro s hm hv hsp
    have hstep := stepUI_draw_vis s e hm hv (hsp e (List.mem_cons_self e rest))
    have hrest := ih (stepUI s e) hstep.2.2.1 hstep.2.2.2
      (fun e' he' => hsp e' (List.mem_cons_of_mem e he'))
    simp only [runUI, List.foldl_cons] at hrest ⊢
    exact ⟨hrest.1.trans hstep.1, hrest.2.trans hstep.2.1⟩

/-- C7: for any sequence of single-pointer events (mouse, one-touch, end),
in move mode the handlers never mutate the mask surface (nor the scale,
only the offset may change); in draw mode on the visualizer tab the
handlers never mutate the offset (nor the scale, only the mask may
change). -/
theorem mode_isolation (evs : List UIEvent) (s : VState)
    (hsp : ∀ e ∈ evs, isSinglePointer e = true) :
    (s.interactionMode = Mode.move →
      (runUI s evs).mask = s.mask ∧ (runUI s evs).scale = s.scale) ∧
    (s.interactionMode = Mode.draw → s.activeTab = Tab.visualizer →
      (runUI s evs).offset = s.offset ∧ (runUI s evs).scale = s.scale) :=
  ⟨fun hm => runUI_move_mode evs s hm hsp,
   fun hm hv => runUI_draw_vis evs s hm hv hsp⟩

/-- Witness for `mode_isolation`: a mouse drag on the initial state (draw
mode, visualizer tab). -/
theorem mode_isolation_witness :
    (initState.interactionMode = Mode.move →
      (runUI initState
        [UIEvent.start (PEvent.mouse 3 4), UIEvent.move (PEvent.mouse 10 10),
         UIEvent.finish]).mask = initState.mask ∧
      (runUI initState
        [UIEvent.start (PEvent.mouse 3 4), UIEvent.move (PEvent.mouse 10 10),
         UIEvent.finish]).scale = initState.scale) ∧
    (initState.interactionMode = Mode.draw → initState.activeTab = Tab.visualizer →
      (runUI initState
        [UIEvent.start (PEvent.mouse 3 4), UIEvent.move (PEvent.mouse 10 10),
         UIEvent.finish]).offset = initState.offset ∧
      (runUI initState
        [UIEvent.start (PEvent.mouse 3 4), UIEvent.move (PEvent.mouse 10 10),
         UIEvent.finish]).scale = initState.scale) :=
  mode_isolation
    [UIEvent.start (PEvent.mouse 3 4), UIEvent.move (PEvent.mouse 10 10),
     UIEvent.finish] initState
    (by
      intro e he
      simp only [List.mem_cons, List.not_mem_nil, or_false] at he
      rcases he with rfl | rfl | rfl <;> rfl)

/-- Run one stroke's successive `draw` calls (the paint samples of a
pointer-down followed by its pointer-moves). -/
def strokeRun (s : VState) (pts : List Point) : VState :=
  pts.foldl (fun t q => draw t q.x q.y) s

/-- Coverage of a polyline stroked at width `w`: union of the coverage of
its successive segments (a single point strokes nothing, matching the
single-point `stroke()` semantics of `draw`). -/
def pathCovers (w : ℚ) : List Point → Point → Bool
  | [], _ => false
  | [_], _ => false
  | a :: b :: rest, p => covers a b w p || pathCovers w (b :: rest) p

/-- `strokeRun` never changes the tool. -/
theorem strokeRun_tool (pts : List Point) :
    ∀ s : VState, (strokeRun s pts).tool = s.tool := by
  induction pts with
  | nil => intro s; rfl
  | cons q rest ih =>
    intro s
    have h : (strokeRun s (q :: rest)).tool
        = (strokeRun (draw s q.x q.y) rest).tool := rfl
    rw [h, ih, draw_tool]

/-- `strokeRun` never changes the brush size. -/
theorem strokeRun_brushSize (pts : List Point) :
    ∀ s : VState, (strokeRun s pts).brushSize = s.brushSize := by
  induction pts with
  | nil => intro s; rfl
  | cons q rest ih =>
    intro s
    have h : (strokeRun s (q :: rest)).brushSize
        = (strokeRun (draw s q.x q.y) rest).brushSize := rfl
    rw [h, ih, draw_brushSize]

/-- `draw` with a closed path leaves the mask untouched (single-point
subpath). -/
theorem draw_mask_none (s : VState) (x y : ℚ) (hpath : s.currentPath = none) :
    (draw s x y).mask = s.mask := by
  simp [draw, hpath]

/-- Mask accumulated by a brush stroke continuing an open path at `a`. -/
theorem strokeRun_mask_brush_aux (pts : List Point) :
    ∀ (s : VState) (a : Point), s.tool = Tool.brush → s.currentPath = some a →
      ∀ p, (strokeRun s pts).mask p
        = (s.mask p || pathCovers s.brushSize (a :: pts) p) := by
  induction pts with
  | nil => intro s a _ _ p; simp [strokeRun, pathCovers]
  | cons q rest ih =>
    intro s a htool hpath p
    have h1 : (draw s q.x q.y).tool = Tool.brush := by
      rw [draw_tool]; exact htool
    have h2 : (draw s q.x q.y).currentPath = some q := by
      rw [draw_currentPath]
    have h : (strokeRun s (q :: rest)).mask p
        = (strokeRun (draw s q.x q.y) rest).mask p := rfl
    rw [h, ih (draw s q.x q.y) q h1 h2 p, draw_brushSize]
    have h3 : (draw s q.x q.y).mask p
        = (s.mask p || covers a q s.brushSize p) := by
      simp [draw, hpath, htool]
    rw [h3]
    simp [pathCovers, Bool.or_assoc]

/-- Mask left by an eraser stroke continuing an open path at `a`. -/
theorem strokeRun_mask_eraser_aux (pts : List Point) :
    ∀ (s : VState) (a : Point), s.tool = Tool.eraser → s.currentPath = some a →
      ∀ p, (strokeRun s pts).mask p
        = (s.mask p && !pathCovers s.brushSize (a :: pts) p) := by
  induction pts with
  | nil => intro s a _ _ p; simp [strokeRun, pathCovers]
  | cons q rest ih =>
    intro s a htool hpath p
    have h1 : (draw s q.x q.y).tool = Tool.eraser := by
      rw [draw_tool]; exact htool
    have h2 : (draw s q.x q.y).currentPath = some q := by
      rw [draw_currentPath]
    have h : (strokeRun s (q :: rest)).mask p
        = (strokeRun (draw s q.x q.y) rest).mask p := rfl
    rw [h, ih (draw s q.x q.y) q h1 h2 p, draw_brushSize]
    have h3 : (draw s q.x q.y).mask p
        = (s.mask p && !covers a q s.brushSize p) := by
      simp [draw, hpath, htool]
    rw [h3]
    simp [pathCovers, Bool.and_assoc]

/-- Mask accumulated by a brush stroke started on a closed path: the old
mask united with the path coverage at the current brush width. -/
theorem strokeRun_mask_brush (s : VState) (pts : List Point)
    (htool : s.tool = Tool.brush) (hpath : s.currentPath = none) :
    ∀ p, (strokeRun s pts).mask p
      = (s.mask p || pathCovers s.brushSize pts p) := by
  cases pts with
  | nil => intro p; simp [strokeRun, pathCovers]
  | cons a rest =>
    intro p
    have h1 : (draw s a.x a.y).tool = Tool.brush := by
      rw [draw_tool]; exact htool
    have h2 : (draw s a.x a.y).currentPath = some a := by
      rw [draw_currentPath]
    have h : (strokeRun s (a :: rest)).mask p
        = (strokeRun (draw s a.x a.y) rest).mask p := rfl
    rw [h, strokeRun_mask_brush_aux rest (draw s a.x a.y) a h1 h2 p,
      draw_brushSize, draw_mask_none s a.x a.y hpath]

/-- Mask left by an eraser stroke started on a closed path: the old mask
minus the path coverage at the current brush width. -/
theorem strokeRun_mask_eraser (s : VState) (pts : List Point)
    (htool : s.tool = Tool.eraser) (hpath : s.currentPath = none) :
    ∀ p, (strokeRun s pts).mask p
      = (s.mask p && !pathCovers s.brushSize pts p) := by
  cases pts with
  | nil => intro p; simp [strokeRun, pathCovers]
  | cons a rest =>
    intro p
    have h1 : (draw s a.x a.y).tool = Tool.eraser := by
      rw [draw_tool]; exact htool
    have h2 : (draw s a.x a.y).currentPath = some a := by
      rw [draw_currentPath]
    have h : (strokeRun s (a :: rest)).mask p
        = (strokeRun (draw s a.x a.y) rest).mask p := rfl
    rw [h, strokeRun_mask_eraser_aux rest (draw s a.x a.y) a h1 h2 p,
      draw_brushSize, draw_mask_none s a.x a.y hpath]

/-- Segment coverage grows with the stroke width. -/
theorem covers_mono (a b : Point) (w w' : ℚ) (p : Point)
    (h0 : 0 ≤ w) (hw : w ≤ w') (hc : covers a b w p = true) :
    covers a b w' p = true := by
  simp only [covers, decide_eq_true_eq] at hc ⊢
  calc 4 * distSqPointSeg p a b ≤ w ^ 2 := hc
    _ ≤ w' ^ 2 := pow_le_pow_left₀ h0 hw 2

/-- Path coverage grows with the stroke width. -/
theorem pathCovers_mono (w w' : ℚ) (h0 : 0 ≤ w) (hw : w ≤ w') :
    ∀ (pts : List Point) (p : Point),
      pathCovers w pts p = true → pathCovers w' pts p = true
  | [], _ => by simp [pathCovers]
  | [_], _ => by simp [pathCovers]
  | a :: b :: rest, p => by
    simp only [pathCovers, Bool.or_eq_true]
    rintro (h | h)
    · exact Or.inl (covers_mono a b w w' p h0 hw h)
    · exact Or.inr (pathCovers_mono w w' h0 hw (b :: rest) p h)

/-- C8 (amended): painting a stroke with the brush and then erasing the
exact same stroke path with the eraser at a width `w'` at least the brush
width restores the mask, provided the pre-paint mask was transparent
everywhere the eraser stroke covers (in particular on a freshly cleared
mask).  The eraser is a destructive clear, so pre-existing paint under the
stroke is removed as well — see the counterexample. -/
theorem paint_erase_roundtrip (s : VState) (pts : List Point) (w' : ℚ)
    (p : Point)
    (htool : s.tool = Tool.brush) (hpath : s.currentPath = none)
    (h0 : 0 ≤ s.brushSize) (hw : s.brushSize ≤ w')
    (hclear : ∀ q, pathCovers w' pts q = true → s.mask q = false) :
    (handleEnd (strokeRun (setBrushSize w' (setTool Tool.eraser
        (handleEnd (strokeRun s pts)))) pts)).mask p = s.mask p := by
  have hA := strokeRun_mask_brush s pts htool hpath p
  have hC := strokeRun_mask_eraser
    (setBrushSize w' (setTool Tool.eraser (handleEnd (strokeRun s pts))))
    pts rfl rfl p
  show (strokeRun (setBrushSize w' (setTool Tool.eraser
      (handleEnd (strokeRun s pts)))) pts).mask p = s.mask p
  rw [hC]
  show ((strokeRun s pts).mask p && !pathCovers w' pts p) = s.mask p
  rw [hA]
  cases hpc : pathCovers w' pts p with
  | false =>
    have hsm : pathCovers s.brushSize pts p = false := by
      cases h' : pathCovers s.brushSize pts p
      · rfl
      · rw [pathCovers_mono s.brushSize w' h0 hw pts p h'] at hpc
        exact Bool.noConfusion hpc
    rw [hsm]
    simp
  | true =>
    rw [hclear p hpc]
    simp

/-- Witness for `paint_erase_roundtrip`: paint (0,0)–(10,0) at width 10 on
a clear mask, erase the same path at width 12; the point (5,0) ends up as
it started. -/
theorem paint_erase_roundtrip_witness :
    (handleEnd (strokeRun (setBrushSize 12 (setTool Tool.eraser
        (handleEnd (strokeRun (setBrushSize 10 initState)
          [⟨0, 0⟩, ⟨10, 0⟩]))))
        [⟨0, 0⟩, ⟨10, 0⟩])).mask ⟨5, 0⟩
      = (setBrushSize 10 initState).mask ⟨5, 0⟩ :=
  paint_erase_roundtrip (setBrushSize 10 initState) [⟨0, 0⟩, ⟨10, 0⟩] 12
    ⟨5, 0⟩ rfl rfl (by norm_num [setBrushSize, initState])
    (by norm_num [setBrushSize, initState]) (fun q _ => rfl)

/-- Counterexample to C8 as stated: with paint already on the mask under
the stroke path, painting a crossing stroke and erasing it again at the
same width also wipes the pre-existing paint: the point (5,0) was painted
before the paint/erase pair and is transparent after it. -/
theorem erase_clears_preexisting_paint :
    (handleEnd (strokeRun (setBrushSize 10 initState)
        [⟨0, 0⟩, ⟨10, 0⟩])).mask ⟨5, 0⟩ = true ∧
    (handleEnd (strokeRun (setTool Tool.eraser
        (handleEnd (strokeRun
          (handleEnd (strokeRun (setBrushSize 10 initState)
            [⟨0, 0⟩, ⟨10, 0⟩]))
          [⟨5, -5⟩, ⟨5, 5⟩])))
        [⟨5, -5⟩, ⟨5, 5⟩])).mask ⟨5, 0⟩ = false := by
  constructor
  · have h1 := strokeRun_mask_brush (setBrushSize 10 initState)
      [⟨0, 0⟩, ⟨10, 0⟩] rfl rfl ⟨5, 0⟩
    show (strokeRun (setBrushSize 10 initState)
      [⟨0, 0⟩, ⟨10, 0⟩]).mask ⟨5, 0⟩ = true
    rw [h1]
    norm_num [pathCovers, covers, distSqPointSeg, setBrushSize, initState,
      min_def, max_def]
  · have h2 := strokeRun_mask_eraser (setTool Tool.eraser
      (handleEnd (strokeRun
        (handleEnd (strokeRun (setBrushSize 10 initState)
          [⟨0, 0⟩, ⟨10, 0⟩]))
        [⟨5, -5⟩, ⟨5, 5⟩]))) [⟨5, -5⟩, ⟨5, 5⟩] rfl rfl ⟨5, 0⟩
    show (strokeRun (setTool Tool.eraser
      (handleEnd (strokeRun
        (handleEnd (strokeRun (setBrushSize 10 initState)
          [⟨0, 0⟩, ⟨10, 0⟩]))
        [⟨5, -5⟩, ⟨5, 5⟩]))) [⟨5, -5⟩, ⟨5, 5⟩]).mask ⟨5, 0⟩ = false
    rw [h2]
    have hbs : (setTool Tool.eraser
        (handleEnd (strokeRun
          (handleEnd (strokeRun (setBrushSize 10 initState)
            [⟨0, 0⟩, ⟨10, 0⟩]))
          [⟨5, -5⟩, ⟨5, 5⟩]))).brushSize = 10 := by
      show (strokeRun
        (handleEnd (strokeRun (setBrushSize 10 initState)
          [⟨0, 0⟩, ⟨10, 0⟩]))
        [⟨5, -5⟩, ⟨5, 5⟩]).brushSize = 10
      rw [strokeRun_brushSize]
      show (strokeRun (setBrushSize 10 initState)
        [⟨0, 0⟩, ⟨10, 0⟩]).brushSize = 10
      rw [strokeRun_brushSize]
      rfl
    rw [hbs]
    have hpc : pathCovers 10 [⟨5, -5⟩, ⟨5, 5⟩] (⟨5, 0⟩ : Point) = true := by
      norm_num [pathCovers, covers, distSqPointSeg, min_def, max_def]
    rw [hpc]
    simp

/-- `strokeRun` keeps `hasDrawn` once set. -/
theorem strokeRun_hasDrawn_mono (pts : List Point) :
    ∀ s : VState, s.hasDrawn = true → (strokeRun s pts).hasDrawn = true := by
  induction pts with
  | nil => intro s h; exact h
  | cons q rest ih =>
    intro s _
    exact ih (draw s q.x q.y) (draw_hasDrawn s q.x q.y)

/-- A stroke with at least one point sets `hasDrawn`. -/
theorem strokeRun_hasDrawn (pts : List Point) (s : VState) (h : pts ≠ []) :
    (strokeRun s pts).hasDrawn = true := by
  cases pts with
  | nil => exact absurd rfl h
  | cons q rest =>
    exact strokeRun_hasDrawn_mono rest (draw s q.x q.y)
      (draw_hasDrawn s q.x q.y)

/-- `draw` with the eraser (or a closed path) keeps an all-transparent
mask all-transparent. -/
theorem draw_eraser_mask_empty (s : VState) (x y : ℚ)
    (htool : s.tool = Tool.eraser) (hm : ∀ p, s.mask p = false) :
    ∀ p, (draw s x y).mask p = false := by
  intro p
  cases hpath : s.currentPath with
  | none => simpa [draw, hpath] using hm p
  | some a => simp [draw, hpath, htool, hm p]

/-- An eraser stroke keeps an all-transparent mask all-transparent. -/
theorem strokeRun_eraser_keeps_empty (pts : List Point) :
    ∀ s : VState, s.tool = Tool.eraser → (∀ p, s.mask p = false) →
      ∀ p, (strokeRun s pts).mask p = false := by
  induction pts with
  | nil => intro s _ hm p; exact hm p
  | cons q rest ih =>
    intro s htool hm p
    refine ih (draw s q.x q.y) ?_ ?_ p
    · rw [draw_tool]; exact htool
    · exact draw_eraser_mask_empty s q.x q.y htool hm

/-- A sequence of strokes, each closed by `handleEnd`. -/
def runStrokes (s : VState) (strokes : List (List Point)) : VState :=
  strokes.foldl (fun t pts => handleEnd (strokeRun t pts)) s

/-- `runStrokes` keeps `hasDrawn` once set. -/
theorem runStrokes_hasDrawn_mono (strokes : List (List Point)) :
    ∀ s : VState, s.hasDrawn = true →
      (runStrokes s strokes).hasDrawn = true := by
  induction strokes with
  | nil => intro s h; exact h
  | cons pts rest ih =>
    intro s h
    exact ih (handleEnd (strokeRun s pts)) (strokeRun_hasDrawn_mono pts s h)

/-- Any stroke sequence containing a nonempty stroke sets `hasDrawn`. -/
theorem runStrokes_hasDrawn_of_mem (strokes : List (List Point)) :
    ∀ s : VState, ∀ pts0 ∈ strokes, pts0 ≠ [] →
      (runStrokes s strokes).hasDrawn = true := by
  induction strokes with
  | nil => intro s pts0 h _; exact absurd h (List.not_mem_nil pts0)
  | cons pts rest ih =>
    intro s pts0 hmem hne
    rcases List.mem_cons.mp hmem with rfl | hmem'
    · exact runStrokes_hasDrawn_mono rest (handleEnd (strokeRun s pts0))
        (strokeRun_hasDrawn pts0 s hne)
    · exact ih (handleEnd (strokeRun s pts)) pts0 hmem' hne

/-- Eraser-only stroke sequences keep an all-transparent mask
all-transparent. -/
theorem runStrokes_eraser_keeps_empty (strokes : List (List Point)) :
    ∀ s : VState, s.tool = Tool.eraser → (∀ p, s.mask p = false) →
      ∀ p, (runStrokes s strokes).mask p = false := by
  induction strokes with
  | nil => intro s _ hm p; exact hm p
  | cons pts rest ih =>
    intro s htool hm p
    refine ih (handleEnd (strokeRun s pts)) ?_ ?_ p
    · show (strokeRun s pts).tool = Tool.eraser
      rw [strokeRun_tool]; exact htool
    · intro p'
      exact strokeRun_eraser_keeps_empty pts s htool hm p'

/-- C10: `draw` sets `hasDrawn` whatever the active tool; consequently,
after `clearCanvas` followed by eraser-only strokes (at least one of which
contains a point), the flag is true while the mask surface is fully
transparent, and `handleGenerate` therefore still serializes and attaches
the mask to the outgoing request. -/
theorem draw_sets_hasDrawn_eraser_mask_sent (s s2 : VState) (x y : ℚ)
    (strokes : List (List Point)) (pts0 : List Point)
    (hmem : pts0 ∈ strokes) (hne : pts0 ≠ []) :
    (draw s x y).hasDrawn = true ∧
    (∀ p, (runStrokes (setTool Tool.eraser (clearCanvas s2)) strokes).mask p
      = false) ∧
    (runStrokes (setTool Tool.eraser (clearCanvas s2)) strokes).hasDrawn
      = true ∧
    generateIncludesMask
      (runStrokes (setTool Tool.eraser (clearCanvas s2)) strokes) = true := by
  refine ⟨draw_hasDrawn s x y, ?_, ?_, ?_⟩
  · exact runStrokes_eraser_keeps_empty strokes _ rfl (fun p => rfl)
  · exact runStrokes_hasDrawn_of_mem strokes _ pts0 hmem hne
  · show (runStrokes (setTool Tool.eraser (clearCanvas s2)) strokes).hasDrawn
      = true
    exact runStrokes_hasDrawn_of_mem strokes _ pts0 hmem hne

/-- Witness for `draw_sets_hasDrawn_eraser_mask_sent`: one eraser stroke
after a clear leaves an empty mask with `hasDrawn` set, and the mask is
attached to the generate request. -/
theorem draw_sets_hasDrawn_eraser_mask_sent_witness :
    (draw initState 0 0).hasDrawn = true ∧
    (runStrokes (setTool Tool.eraser (clearCanvas initState))
      [[⟨0, 0⟩, ⟨1, 0⟩]]).mask ⟨0, 0⟩ = false ∧
    (runStrokes (setTool Tool.eraser (clearCanvas initState))
      [[⟨0, 0⟩, ⟨1, 0⟩]]).hasDrawn = true ∧
    generateIncludesMask (runStrokes (setTool Tool.eraser
      (clearCanvas initState)) [[⟨0, 0⟩, ⟨1, 0⟩]]) = true := by
  have h := draw_sets_hasDrawn_eraser_mask_sent initState initState 0 0
    [[⟨0, 0⟩, ⟨1, 0⟩]] [⟨0, 0⟩, ⟨1, 0⟩] (List.mem_singleton_self _)
    (by simp)
  exact ⟨h.1, h.2.1 ⟨0, 0⟩, h.2.2.1, h.2.2.2⟩

/-- The surrounding application state for the image-change effect: the
component state plus whether a deferred `fitImageToScreen` call
(`setTimeout(fitImageToScreen, 50)`) is pending. -/
structure AppState where
  view : VState
  pendingFit : Bool

/-- The `useEffect` on `image` (lines 79-83): when an image is set,
schedule one deferred `fitImageToScreen` call. -/
def imageEffect (imageSet : Bool) (a : AppState) : AppState :=
  if imageSet then { a with pendingFit := true } else a

/-- Firing the deferred timer applies `fitImageToScreen` to the current
view state and clears the pending flag. -/
def fireFitTimer (imgW imgH cw ch : ℚ) (a : AppState) : AppState :=
  if a.pendingFit then
    { view := fitImageToScreen imgW imgH cw ch a.view, pendingFit := false }
  else a

/-- C9: with a zero container dimension, `fitImageToScreen` is a no-op —
the whole state (in particular scale and offset) is unchanged and the
function is total, so no error is raised — and setting an image schedules
a deferred retry whose firing invokes the fit again. -/
theorem fit_zero_container_noop_retry (imgW imgH cw ch : ℚ) (s : VState)
    (a : AppState) (h : cw = 0 ∨ ch = 0) :
    fitImageToScreen imgW imgH cw ch s = s ∧
    (imageEffect true a).pendingFit = true ∧
    fireFitTimer imgW imgH cw ch (imageEffect true a)
      = { view := fitImageToScreen imgW imgH cw ch a.view,
          pendingFit := false } := by
  refine ⟨?_, rfl, rfl⟩
  rw [fitImageToScreen, if_pos h]

/-- Witness for `fit_zero_container_noop_retry`: an 800×600 image in a
container whose width is still zero. -/
theorem fit_zero_container_noop_retry_witness :
    fitImageToScreen 800 600 0 500 initState = initState ∧
    (imageEffect true ⟨initState, false⟩).pendingFit = true ∧
    fireFitTimer 800 600 0 500 (imageEffect true ⟨initState, false⟩)
      = { view := fitImageToScreen 800 600 0 500 initState,
          pendingFit := false } :=
  fit_zero_container_noop_retry 800 600 0 500 initState ⟨initState, false⟩
    (Or.inl rfl)
